import Mathlib

/-!
Verification development for the wings node daemon sources: the crash
handler (`handleServerCrash`), the sandboxed archive engine
(`CompressFiles`, `extractStream` and its helpers, `decodeGBK`), and the
HTTP error translator (`RequestError.AbortWithStatus`,
`getAsFilesystemError`).  The Go code is shallowly embedded: machine
integers become `Nat`/`Int`, byte strings become `List Nat`, paths become
lists of byte-list segments, and stateful operations pass an explicit
filesystem state.  Operations of the repository that are referenced but
whose bodies are not part of the given sources (`SafePath`, `Writefile`,
`HasSpaceFor`, the archive library's entry loop, the GBK decoder of the
text library) are modelled from the specification; each such definition
says so in its doc comment.
-/

namespace Wings

/-! ## Crash handler (server/crash.go: `handleServerCrash`) -/

/-- The inputs `handleServerCrash` reads for one invocation: the current
time, whether the environment state is offline, whether crash detection is
enabled for the server, and the exit state `(exit_code, oom_killed)` of the
last container exit together with the global `detect_clean_exit_as_crash`
flag.  Times are seconds as `Nat`; the Go zero `time.Time` is modelled as
`0` (so `IsZero` becomes `= 0`).  `ExitState` is modelled as total: the
error return of `ExitState` is not represented. -/
structure CrashEvent where
  now : Nat
  offline : Bool
  detectionEnabled : Bool
  exitCode : Int
  oomKilled : Bool
  detectCleanExitAsCrash : Bool
deriving DecidableEq, Repr

/-- The observable outcome of one `handleServerCrash` call. -/
inductive CrashOutcome where
  | skippedState
  | skippedDisabled
  | cleanExit
  | tooFrequent
  | restart
deriving DecidableEq, Repr

/-- The crash banner (exit code / oom lines) is published exactly on the
paths that reach the cooldown check. -/
def CrashOutcome.announcedCrash : CrashOutcome → Bool
  | .tooFrequent => true
  | .restart => true
  | _ => false

/-- `HandlePowerAction(PowerActionStart)` is invoked exactly on the
`restart` outcome. -/
def CrashOutcome.didRestart : CrashOutcome → Bool
  | .restart => true
  | _ => false

/-- `handleServerCrash` returns a `&crashTooFrequent{}` error exactly on the
`tooFrequent` outcome (the `restart` outcome returns whatever the power
action returns, which is not modelled). -/
def CrashOutcome.isRefusal : CrashOutcome → Bool
  | .tooFrequent => true
  | _ => false

/-- Shallow embedding of `handleServerCrash` (crash.go).  State is the
recorded `lastCrash` time (`0` = never crashed); the function returns the
outcome and the new `lastCrash`.  The Go condition
`timeout != 0 && !c.IsZero() && c.Add(time.Second*timeout).After(time.Now())`
becomes `timeout ≠ 0 ∧ lastCrash ≠ 0 ∧ ev.now < lastCrash + timeout`. -/
def handleServerCrash (timeout : Nat) (lastCrash : Nat) (ev : CrashEvent) :
    CrashOutcome × Nat :=
  if ev.offline = false ∨ ev.detectionEnabled = false then
    (if ev.detectionEnabled = false then (.skippedDisabled, lastCrash)
     else (.skippedState, lastCrash))
  else if ev.exitCode = 0 ∧ ev.oomKilled = false ∧ ev.detectCleanExitAsCrash = false then
    (.cleanExit, lastCrash)
  else if timeout ≠ 0 ∧ lastCrash ≠ 0 ∧ ev.now < lastCrash + timeout then
    (.tooFrequent, lastCrash)
  else
    (.restart, ev.now)

/-- A call reaches the cooldown check (policy steps 4-6) when the server is
offline, detection is enabled and the exit does not count as clean. -/
def reachesCooldown (ev : CrashEvent) : Prop :=
  ev.offline = true ∧ ev.detectionEnabled = true ∧
    ¬(ev.exitCode = 0 ∧ ev.oomKilled = false ∧ ev.detectCleanExitAsCrash = false)

/-- Folding `handleServerCrash` over a sequence of crash events, returning
the final `lastCrash` and the times at which a restart was issued. -/
def crashRun (timeout : Nat) (lastCrash : Nat) : List CrashEvent → Nat × List Nat
  | [] => (lastCrash, [])
  | ev :: rest =>
    let r := handleServerCrash timeout lastCrash ev
    let t := crashRun timeout r.2 rest
    (t.1, if r.1.didRestart then ev.now :: t.2 else t.2)

/-! ## Paths

Byte strings are `List Nat`; a path is a list of segments (the result of
splitting on the `/` byte, which the Go code never embeds in a segment).
`filepath.Join` joins and then lexically cleans, so the embedding provides
the two cleaning modes of Go's `filepath.Clean`: rooted paths drop leading
`..`, relative paths keep it. -/

/-- A path segment: the bytes between two separators. -/
abbrev Seg := List Nat

/-- A path: its list of segments. -/
abbrev GoPath := List Seg

/-- The segment consisting of one `.` byte. -/
def dotSeg : Seg := [46]

/-- The segment consisting of two `.` bytes. -/
def dotdotSeg : Seg := [46, 46]

/-- One step of `filepath.Clean` on a rooted path: `.` and empty segments
vanish, `..` pops the last segment (and vanishes at the top, as
`Clean("/../x") = "/x")`. -/
def cleanAbsStep (acc : GoPath) (s : Seg) : GoPath :=
  if s = dotSeg ∨ s = [] then acc
  else if s = dotdotSeg then acc.dropLast
  else acc ++ [s]

/-- `filepath.Clean` of a rooted path. -/
def cleanAbs (p : GoPath) : GoPath := p.foldl cleanAbsStep []

/-- One step of `filepath.Clean` on a relative path: as `cleanAbsStep`,
except that `..` is kept when there is nothing left to pop. -/
def cleanRelStep (acc : GoPath) (s : Seg) : GoPath :=
  if s = dotSeg ∨ s = [] then acc
  else if s = dotdotSeg then
    (if acc = [] ∨ acc.getLast? = some dotdotSeg then acc ++ [dotdotSeg]
     else acc.dropLast)
  else acc ++ [s]

/-- `filepath.Clean` of a relative path. -/
def cleanRel (p : GoPath) : GoPath := p.foldl cleanRelStep []

/-- `filepath.Join` of two relative paths (join, then clean). -/
def joinRel (a b : GoPath) : GoPath := cleanRel (a ++ b)

/-- `filepath.Join` of a rooted path with a relative path. -/
def joinAbs (a b : GoPath) : GoPath := cleanAbs (a ++ b)

/-- Modelled from the spec: `SafePath` (server/filesystem, not among the
given sources).  §4.1: join the input with `root`, lexically clean, and
fail with a path-resolution error unless the result stays a descendant of
`root`.  The model filesystem has no symlinks, so the element-wise symlink
expansion of the spec collapses to the lexical check. -/
def safePath (root : GoPath) (p : GoPath) : Option GoPath :=
  let j := joinAbs root p
  if root.isPrefixOf j then some j else none

/-! ## Filesystem state and quota ledger -/

/-- Stable error kinds of the filesystem layer (§7). -/
inductive FsErr where
  | pathResolution
  | diskSpace
  | cancelled
  | otherErr
deriving DecidableEq, Repr

/-- The per-server filesystem view: quota limit (`0` = unlimited), the
`disk_used` ledger, and the files on disk as (rooted path, size) pairs. -/
structure FState where
  diskLimit : Nat
  diskUsed : Nat
  files : List (GoPath × Nat)
deriving DecidableEq, Repr

/-- Modelled from the spec: `HasSpaceFor`/`CanFit` (§4.1): fits unless
`disk_limit > 0` and `disk_used + delta > disk_limit`. -/
def fitsQuota (st : FState) (delta : Nat) : Bool :=
  !(0 < st.diskLimit && st.diskLimit < st.diskUsed + delta)

/-- Record a file at `p` with size `n` (creating or replacing). -/
def setFile (files : List (GoPath × Nat)) (p : GoPath) (n : Nat) :
    List (GoPath × Nat) :=
  files.filter (fun e => !(e.1 = p : Bool)) ++ [(p, n)]

/-- Remove the file at `p`. -/
def removeFile (files : List (GoPath × Nat)) (p : GoPath) :
    List (GoPath × Nat) :=
  files.filter (fun e => !(e.1 = p : Bool))

/-- Size of the file at `p` (0 when absent). -/
def getSize (files : List (GoPath × Nat)) (p : GoPath) : Nat :=
  match files.find? (fun e => (e.1 = p : Bool)) with
  | some e => e.2
  | none => 0

/-- Modelled from the spec: `Writefile`/`Write` (§4.1, not among the given
sources).  The target is resolved through `SafePath`; the stream is
written with a per-chunk quota check, the partial file being removed on
quota exhaustion, so at this granularity the write is atomic: either the
whole file lands (and `disk_used` grows by exactly the written size) or a
path-resolution or disk-space error is returned with the state
unchanged. -/
def Writefile (root : GoPath) (st : FState) (p : GoPath) (size : Nat) :
    FState × Option FsErr :=
  match safePath root p with
  | none => (st, some .pathResolution)
  | some rp =>
    if fitsQuota st size then
      ({ st with files := setFile st.files rp size,
                 diskUsed := st.diskUsed + size }, none)
    else (st, some .diskSpace)

/-! ## Archive extraction (compress.go: `extractStream` and helpers)

The archiver library's entry walk is modelled from the spec (§4.2/§5): it
presents the entries in order and checks the context at each entry
boundary ("on context cancellation, extraction stops at the current entry
boundary").  The context is a countdown: `some k` means cancellation
becomes visible at the k-th boundary from now; `none` means never. -/

/-- One archive entry as the extraction callback sees it: the
`NameInArchive` split into segments, `IsDir`, and the entry size. -/
structure GoEntry where
  nameSegs : GoPath
  isDir : Bool
  size : Nat
deriving DecidableEq, Repr

/-- Context cancellation becomes visible now. -/
def ctxDone : Option Nat → Bool
  | none => false
  | some n => n = 0

/-- Context after one entry boundary. -/
def ctxStep : Option Nat → Option Nat
  | none => none
  | some n => some (n - 1)

/-- The per-entry callback of the new `extractStream` (compress.go lines
544-571): skip directories, join `Directory` with the entry name, skip
entries the denylist matcher reports as ignored, decode the joined path
(`decodeGBK`, passed in as the segment-wise transform `dec`), and write
through the sandboxed filesystem.  `Chmod`/`Chtimes` do not change the
modelled state. -/
def extractEntry (root : GoPath) (ign : GoPath → Bool) (dec : GoPath → GoPath)
    (dir : GoPath) (e : GoEntry) (st : FState) : FState × Option FsErr :=
  if e.isDir then (st, none)
  else
    let p := joinRel dir e.nameSegs
    if ign p then (st, none)
    else Writefile root st (dec p) e.size

/-- The container-archive loop of `extractStream`: the library walk over
the entries, checking the context at each entry boundary and aborting on
the first callback error. -/
def extractLoop (root : GoPath) (ign : GoPath → Bool) (dec : GoPath → GoPath)
    (dir : GoPath) : Option Nat → List GoEntry → FState → FState × Option FsErr
  | _, [], st => (st, none)
  | cancel, e :: rest, st =>
    if ctxDone cancel then (st, some .cancelled)
    else
      match extractEntry root ign dec dir e st with
      | (st', some er) => (st', some er)
      | (st', none) => extractLoop root ign dec dir (ctxStep cancel) rest st'

/-- `strings.TrimSuffix` on one segment. -/
def trimSuffixSeg (s suffix : Seg) : Seg :=
  if suffix.isSuffixOf s then s.take (s.length - suffix.length) else s

/-- `strings.TrimSuffix(FileName, Format.Name())`: the format's name (such
as `.gz`) contains no separator, so it trims the last segment. -/
def trimPathSuffix (p : GoPath) (suffix : Seg) : GoPath :=
  match p.getLast? with
  | none => p
  | some s => p.dropLast ++ [trimSuffixSeg s suffix]

/-- Options of `extractStream` (compress.go lines 468-477), together with
the capabilities of the identified format and the data the two branches
consume: the entry list of a container archive, and the decompressed
chunk sizes of a single-file compression. -/
structure ExtractOpts where
  directory : GoPath
  fileNameSegs : GoPath
  formatExt : Seg
  isExtractor : Bool
  isDecompressor : Bool
  entries : List GoEntry
  chunkSizes : List Nat
deriving Repr

/-- The chunk loop of the single-file branch (compress.go lines 510-538):
for each 4 KiB chunk, check the quota, write the chunk, add it to the
ledger.  On a quota error the loop returns with the partial file kept and
the already-written chunks still counted (the source removes nothing
here).  The context is never consulted. -/
def decompressChunks (rp : GoPath) : List Nat → FState → FState × Option FsErr
  | [], st => (st, none)
  | n :: rest, st =>
    if fitsQuota st n then
      decompressChunks rp rest
        { st with files := setFile st.files rp (getSize st.files rp + n),
                  diskUsed := st.diskUsed + n }
    else (st, some .diskSpace)

/-- The single-file decompressor branch of `extractStream` (compress.go
lines 484-541): derive the target by stripping the compression suffix,
skip it if ignored, open it through the sandboxed filesystem (`OpenFile`
with `O_CREATE`, path-checked), and stream the chunks.  The model assumes
the target file does not pre-exist, so its size is the written byte
count. -/
def extractSingle (root : GoPath) (ign : GoPath → Bool) (opts : ExtractOpts)
    (st : FState) : FState × Option FsErr :=
  let p := joinRel opts.directory (trimPathSuffix opts.fileNameSegs opts.formatExt)
  if ign p then (st, none)
  else
    match safePath root p with
    | none => (st, some .pathResolution)
    | some rp =>
      decompressChunks rp opts.chunkSizes
        { st with files := setFile st.files rp (getSize st.files rp) }

/-- `extractStream` (compress.go lines 479-572): if the format is an
extractor, run the container-archive walk; otherwise, if it is a
decompressor, run the single-file branch (which ignores the context and
the decoder); otherwise return success having done nothing (lines
485-487). -/
def extractStream (root : GoPath) (ign : GoPath → Bool) (dec : GoPath → GoPath)
    (cancel : Option Nat) (opts : ExtractOpts) (st : FState) :
    FState × Option FsErr :=
  if opts.isExtractor then
    extractLoop root ign dec opts.directory cancel opts.entries st
  else if opts.isDecompressor then
    extractSingle root ign opts st
  else (st, none)

/-! ## CompressFiles (compress.go lines 317-338, new version) -/

/-- `CompressFiles` of the ufs-based version: join the archive name into
`dir`, open the target through the sandboxed filesystem (`O_CREATE`, so
the file exists from here on), stream the tar.gz through a counting
writer (`streamResult` is `some n` when the stream finishes having
written `n` bytes, `none` when it fails — in which case the source
returns the error leaving the partial archive in place), then check
`CanFit(BytesWritten())`: on failure remove the archive and return a
disk-space error with `disk_used` untouched, otherwise add exactly the
written size to `disk_used` and return the archive's file info (its
size). -/
def CompressFiles (root : GoPath) (st : FState) (dir : GoPath) (archName : Seg)
    (streamResult : Option Nat) : FState × Except FsErr Nat :=
  let d := joinRel dir [archName]
  match safePath root d with
  | none => (st, .error .pathResolution)
  | some rp =>
    let st₁ := { st with files := setFile st.files rp 0 }
    match streamResult with
    | none => (st₁, .error .otherErr)
    | some n =>
      let st₂ := { st₁ with files := setFile st₁.files rp n }
      if fitsQuota st₂ n then
        ({ st₂ with diskUsed := st₂.diskUsed + n }, .ok n)
      else
        ({ st₂ with files := removeFile st₂.files rp }, .error .diskSpace)

/-! ## CompressFiles (compress.go lines 47-87, SafePath-based version) -/

/-- Modelled from the spec: `ParallelSafePath` (§4.1, not among the given
sources): apply `SafePath` to every element; on any failure the whole
call fails.  Concurrency and first-failure cancellation do not change the
result. -/
def ParallelSafePath (spf : GoPath → Option GoPath) (ps : List GoPath) :
    Option (List GoPath) :=
  ps.foldr
    (fun p acc =>
      match spf p, acc with
      | some c, some l => some (c :: l)
      | _, _ => none)
    (some [])

/-- The SafePath-based `CompressFiles` (compress.go lines 47-87): resolve
`dir`; then overwrite every element of the caller's `paths` slice in
place with `filepath.Join(cleanedRootDir, p)`; then validate the
overwritten slice with `ParallelSafePath`; then create the archive, stat
it and apply the quota check.  The function returns its result together
with the `paths` slice as the caller sees it afterwards.  `SafePath` is
the parameter `spf`; archive creation and stat are abstracted by the
`createOk`/`statSize` outcomes. -/
def CompressFiles_v1 (spf : GoPath → Option GoPath) (dir : GoPath)
    (paths : List GoPath) (createOk : Bool) (statSize : Option Nat)
    (st : FState) : Except FsErr Unit × List GoPath :=
  match spf dir with
  | none => (.error .pathResolution, paths)
  | some cleanedRoot =>
    let paths' := paths.map (fun p => joinAbs cleanedRoot p)
    match ParallelSafePath spf paths' with
    | none => (.error .pathResolution, paths')
    | some _ =>
      if createOk = false then (.error .otherErr, paths')
      else
        match statSize with
        | none => (.error .otherErr, paths')
        | some n =>
          if fitsQuota st n then (.ok (), paths')
          else (.error .diskSpace, paths')

/-! ## Filename bytes: UTF-8 validity and the GBK decoder

`decodeGBK` (compress.go lines 575-582) feeds the joined path through the
GBK decoder of the text library.  The decoder is modelled byte for byte
after that library: ASCII passes through, `0x80` becomes U+20AC, a lead
byte `0x81..0xFE` followed by a trail byte in `0x40..0x7E` or
`0x80..0xFE` consumes the pair and emits the table character, and
anything else consumes one byte and emits U+FFFD.  The decoder replaces
rather than fails, so the error return of `decodeGBK` is dead code. -/

/-- Standard UTF-8 encoder for one code point. -/
def utf8Encode (c : Nat) : List Nat :=
  if c < 0x80 then [c]
  else if c < 0x800 then [0xC0 + c / 0x40, 0x80 + c % 0x40]
  else if c < 0x10000 then
    [0xE0 + c / 0x1000, 0x80 + c / 0x40 % 0x40, 0x80 + c % 0x40]
  else
    [0xF0 + c / 0x40000, 0x80 + c / 0x1000 % 0x40, 0x80 + c / 0x40 % 0x40,
      0x80 + c % 0x40]

/-- A UTF-8 continuation byte. -/
def utf8Cont (b : Nat) : Bool := 0x80 ≤ b && b ≤ 0xBF

/-- Standard UTF-8 validity of a byte string (rejecting overlong forms,
surrogates and code points above U+10FFFF), used by the claim's reading
of the spec ("if invalid as UTF-8"). -/
def utf8Valid : List Nat → Bool
  | [] => true
  | b :: rest =>
    if b < 0x80 then utf8Valid rest
    else if 0xC2 ≤ b && b ≤ 0xDF then
      match rest with
      | c :: r2 => utf8Cont c && utf8Valid r2
      | [] => false
    else if b = 0xE0 then
      match rest with
      | c :: d :: r2 => (0xA0 ≤ c && c ≤ 0xBF) && utf8Cont d && utf8Valid r2
      | _ => false
    else if (0xE1 ≤ b && b ≤ 0xEC) || b = 0xEE || b = 0xEF then
      match rest with
      | c :: d :: r2 => utf8Cont c && utf8Cont d && utf8Valid r2
      | _ => false
    else if b = 0xED then
      match rest with
      | c :: d :: r2 => (0x80 ≤ c && c ≤ 0x9F) && utf8Cont d && utf8Valid r2
      | _ => false
    else if b = 0xF0 then
      match rest with
      | c :: d :: e :: r2 =>
        (0x90 ≤ c && c ≤ 0xBF) && utf8Cont d && utf8Cont e && utf8Valid r2
      | _ => false
    else if 0xF1 ≤ b && b ≤ 0xF3 then
      match rest with
      | c :: d :: e :: r2 => utf8Cont c && utf8Cont d && utf8Cont e && utf8Valid r2
      | _ => false
    else if b = 0xF4 then
      match rest with
      | c :: d :: e :: r2 =>
        (0x80 ≤ c && c ≤ 0x8F) && utf8Cont d && utf8Cont e && utf8Valid r2
      | _ => false
    else false

/-- Modelled from the spec: the two-byte lookup table of the GBK decoder
(the text library's table is data, not source).  Only the pairs this file
evaluates are listed — `0xC3 0xA9` is U+8305 and `0xB0 0xA1` is U+554A in
code page 936 — every other pair maps to the replacement character, which
is what the library does for unassigned pairs.  The theorems below
evaluate the decoder only on ASCII bytes and on the listed pairs. -/
def gbkTable (b c : Nat) : Nat :=
  if b = 0xC3 ∧ c = 0xA9 then 0x8305
  else if b = 0xB0 ∧ c = 0xA1 then 0x554A
  else 0xFFFD

/-- A valid GBK trail byte (`0x40..0x7E` or `0x80..0xFE`). -/
def gbkTrail (c : Nat) : Bool :=
  (0x40 ≤ c && c ≤ 0x7E) || (0x80 ≤ c && c ≤ 0xFE)

/-- The GBK decoder on a byte string (see the section comment).  This is
the body of `decodeGBK` minus the dead error path: a lone lead byte at
the end of the input (the one-element non-ASCII case) yields the
replacement character. -/
def gbkDecode : List Nat → List Nat
  | [] => []
  | [b] =>
    if b < 0x80 then [b]
    else if b = 0x80 then utf8Encode 0x20AC
    else utf8Encode 0xFFFD
  | b :: c :: r2 =>
    if b < 0x80 then b :: gbkDecode (c :: r2)
    else if b = 0x80 then utf8Encode 0x20AC ++ gbkDecode (c :: r2)
    else if b = 0xFF then utf8Encode 0xFFFD ++ gbkDecode (c :: r2)
    else if gbkTrail c then utf8Encode (gbkTable b c) ++ gbkDecode r2
    else utf8Encode 0xFFFD ++ gbkDecode (c :: r2)

/-- `decodeGBK` (compress.go lines 575-582) applied to a joined path: the
decoder maps the separator byte to itself and never consumes it as a
trail byte (trail bytes are `≥ 0x40`), so it acts on each segment
independently. -/
def decodeGBKPath (p : GoPath) : GoPath := p.map gbkDecode

/-- The per-entry name handling the claim describes (for comparison with
the source): the declared bytes are kept, and only a name that is invalid
as UTF-8 is put through the legacy decoder. -/
def specEntryName (name : List Nat) : List Nat :=
  if utf8Valid name then name else gbkDecode name

/-! ## HTTP error translator (router middleware: `RequestError`) -/

/-- The error kinds the translator distinguishes.  The text-based
fallback checks of the source (`strings.Contains` on the message) detect
the same kinds as `filesystem.IsErrorCode` and are folded into them. -/
inductive ErrKind where
  | denylist
  | pathResolution
  | isDirectory
  | diskSpace
  | nameTooLong
  | readdirent
  | notExist
  | invalidEscape
  | otherKind
deriving DecidableEq, Repr

/-- A tracked request error: its kind and its correlation uuid. -/
structure ReqErr where
  kind : ErrKind
  uuid : Nat
deriving DecidableEq, Repr

/-- `getAsFilesystemError` (part_002 lines 124-147): the kind-to-status
table, `0` meaning "not a filesystem error". -/
def getAsFilesystemError (k : ErrKind) : Nat :=
  if k = .denylist then 403
  else if k = .pathResolution then 404
  else if k = .isDirectory then 400
  else if k = .diskSpace then 400
  else if k = .nameTooLong then 400
  else if k = .readdirent then 404
  else 0

/-- Log levels the translator uses. -/
inductive LogLevel where
  | errorLevel
  | debugLevel
deriving DecidableEq, Repr

/-- What one `AbortWithStatus` call produces: the response status, the
correlation uuid placed in the response body (when any), and the log
entry written (level and the uuid recorded in its `error_id` field). -/
structure HttpOutcome where
  status : Nat
  bodyErrorId : Option Nat
  logged : Option (LogLevel × Nat)
deriving DecidableEq, Repr

/-- `RequestError.AbortWithStatus` (part_002 lines 70-114): replace the
requested status with the response's committed status when that is not
200; answer `os.ErrNotExist` with a plain 404 and bad URL escapes with a
plain 400; answer filesystem kinds with the table status; otherwise log
(at error level when the status is ≥ 500, else debug — the log entry
carries the uuid) and answer with the status and a body containing the
uuid. -/
def AbortWithStatus (requested : Nat) (committed : Nat) (e : ReqErr) :
    HttpOutcome :=
  let status := if committed ≠ 200 then committed else requested
  if e.kind = .notExist then ⟨404, none, none⟩
  else if e.kind = .invalidEscape then ⟨400, none, none⟩
  else if getAsFilesystemError e.kind ≠ 0 then
    ⟨getAsFilesystemError e.kind, none, none⟩
  else
    let lvl := if 500 ≤ status then LogLevel.errorLevel else LogLevel.debugLevel
    ⟨status, some e.uuid, some (lvl, e.uuid)⟩

theorem handleServerCrash_restart_sep (timeout lastCrash : Nat) (ev : CrashEvent)
    (hT : timeout ≠ 0)
    (h : (handleServerCrash timeout lastCrash ev).1 = .restart) :
    (handleServerCrash timeout lastCrash ev).2 = ev.now ∧
      (lastCrash = 0 ∨ lastCrash + timeout ≤ ev.now) := by
  unfold handleServerCrash at h ⊢
  by_cases h1 : ev.offline = false ∨ ev.detectionEnabled = false
  · simp only [h1, if_true] at h
    by_cases h2 : ev.detectionEnabled = false <;> simp [h2] at h
  · simp only [h1, if_false] at h ⊢
    by_cases h2 : ev.exitCode = 0 ∧ ev.oomKilled = false ∧ ev.detectCleanExitAsCrash = false
    · simp [h2] at h
    · simp only [h2, if_false] at h ⊢
      by_cases h3 : timeout ≠ 0 ∧ lastCrash ≠ 0 ∧ ev.now < lastCrash + timeout
      · simp [h3] at h
      · simp only [h3, if_false]
        refine ⟨by trivial, ?_⟩
        by_cases h4 : lastCrash = 0
        · exact Or.inl h4
        · refine Or.inr ?_
          by_contra h5
          exact h3 ⟨hT, h4, Nat.lt_of_not_le h5⟩

theorem handleServerCrash_no_restart_keeps (timeout lastCrash : Nat) (ev : CrashEvent)
    (h : (handleServerCrash timeout lastCrash ev).1 ≠ .restart) :
    (handleServerCrash timeout lastCrash ev).2 = lastCrash := by
  unfold handleServerCrash at h ⊢
  by_cases h1 : ev.offline = false ∨ ev.detectionEnabled = false
  · simp only [h1, if_true]
    by_cases h2 : ev.detectionEnabled = false <;> simp [h2]
  · simp only [h1, if_false] at h ⊢
    by_cases h2 : ev.exitCode = 0 ∧ ev.oomKilled = false ∧ ev.detectCleanExitAsCrash = false
    · simp [h2]
    · simp only [h2, if_false] at h ⊢
      by_cases h3 : timeout ≠ 0 ∧ lastCrash ≠ 0 ∧ ev.now < lastCrash + timeout
      · simp [h3]
      · simp [h3] at h

/-- Restart times produced by a run are pairwise separated by at least the
cooldown, and each is at least `lastCrash + timeout` when a previous crash
is recorded. -/
theorem crashRun_restart_separation (timeout : Nat) (hT : timeout ≠ 0) :
    ∀ (evs : List CrashEvent) (lastCrash : Nat),
      (∀ ev ∈ evs, 0 < ev.now) →
      (crashRun timeout lastCrash evs).2.Pairwise (fun a b => a + timeout ≤ b) ∧
        (∀ t ∈ (crashRun timeout lastCrash evs).2,
          lastCrash ≠ 0 → lastCrash + timeout ≤ t) := by
  intro evs
  induction evs with
  | nil => intro lc _; simp [crashRun]
  | cons ev rest ih =>
    intro lc hpos
    have hposev : 0 < ev.now := hpos ev (List.mem_cons_self _ _)
    have hposrest : ∀ e ∈ rest, 0 < e.now := fun e he => hpos e (List.mem_cons_of_mem _ he)
    by_cases hr : (handleServerCrash timeout lc ev).1 = .restart
    · have hsep := handleServerCrash_restart_sep timeout lc ev hT hr
      have hst : (handleServerCrash timeout lc ev).2 = ev.now := hsep.1
      have ihr := ih ev.now hposrest
      constructor
      · show (crashRun timeout lc (ev :: rest)).2.Pairwise _
        simp only [crashRun, hr, hst, CrashOutcome.didRestart]
        refine List.Pairwise.cons ?_ ihr.1
        intro t ht
        exact ihr.2 t ht (by omega)
      · intro t ht hlc
        simp only [crashRun, hr, hst, CrashOutcome.didRestart] at ht
        rcases List.mem_cons.mp ht with h | h
        · subst h
          rcases hsep.2 with h0 | h0
          · exact absurd h0 hlc
          · exact h0
        · have h1 := ihr.2 t h (by omega)
          rcases hsep.2 with h0 | h0
          · exact absurd h0 hlc
          · omega
    · have hst := handleServerCrash_no_restart_keeps timeout lc ev hr
      have ihr := ih lc hposrest
      constructor
      · show (crashRun timeout lc (ev :: rest)).2.Pairwise _
        simp only [crashRun, hst]
        have : (handleServerCrash timeout lc ev).1.didRestart = false := by
          cases h : (handleServerCrash timeout lc ev).1 <;>
            simp [CrashOutcome.didRestart] ; exact hr h
        simp only [this, if_false]
        exact ihr.1
      · intro t ht hlc
        simp only [crashRun, hst] at ht
        have : (handleServerCrash timeout lc ev).1.didRestart = false := by
          cases h : (handleServerCrash timeout lc ev).1 <;>
            simp [CrashOutcome.didRestart] ; exact hr h
        simp only [this, if_false] at ht
        exact ihr.2 t ht hlc

/-- A list whose elements are pairwise at least `T` apart has at most one
element in any half-open window `[w, w + T)`. -/
theorem pairwise_sep_window (T : Nat) (l : List Nat)
    (hp : l.Pairwise (fun a b => a + T ≤ b)) (w : Nat) :
    (l.filter (fun t => decide (w ≤ t ∧ t < w + T))).length ≤ 1 := by
  have hsub : List.Sublist (l.filter (fun t => decide (w ≤ t ∧ t < w + T))) l :=
    List.filter_sublist l
  have hpf : (l.filter (fun t => decide (w ≤ t ∧ t < w + T))).Pairwise
      (fun a b => a + T ≤ b) := hp.sublist hsub
  match hm : l.filter (fun t => decide (w ≤ t ∧ t < w + T)) with
  | [] => simp
  | [a] => simp
  | a :: b :: rest =>
    exfalso
    rw [hm] at hpf
    have hab : a + T ≤ b := (List.pairwise_cons.mp hpf).1 b (List.mem_cons_self _ _)
    have ha : a ∈ l.filter (fun t => decide (w ≤ t ∧ t < w + T)) := by
      rw [hm]; exact List.mem_cons_self _ _
    have hb : b ∈ l.filter (fun t => decide (w ≤ t ∧ t < w + T)) := by
      rw [hm]; exact List.mem_cons_of_mem _ (List.mem_cons_self _ _)
    have ha' : w ≤ a ∧ a < w + T := of_decide_eq_true (List.mem_filter.mp ha).2
    have hb' : w ≤ b ∧ b < w + T := of_decide_eq_true (List.mem_filter.mp hb).2
    omega

/-- C2: with crash-detection cooldown timeout `T ≠ 0`, whenever
`handleServerCrash` reaches the cooldown check with a non-zero recorded
last crash less than `T` seconds in the past it returns the
crash-too-frequent refusal and issues no restart; otherwise it records
`last_crash = now` and issues exactly one restart.  Consequently, over any
sequence of crash events, at most one crash-triggered restart occurs
within any window of `T` seconds. -/
theorem claim_C2_crash_cooldown (T : Nat) (hT : T ≠ 0) :
    (∀ lastCrash ev, reachesCooldown ev → lastCrash ≠ 0 → ev.now < lastCrash + T →
      handleServerCrash T lastCrash ev = (.tooFrequent, lastCrash) ∧
        CrashOutcome.tooFrequent.didRestart = false ∧
        CrashOutcome.tooFrequent.isRefusal = true) ∧
    (∀ lastCrash ev, reachesCooldown ev → ¬(lastCrash ≠ 0 ∧ ev.now < lastCrash + T) →
      handleServerCrash T lastCrash ev = (.restart, ev.now) ∧
        CrashOutcome.restart.didRestart = true) ∧
    (∀ lastCrash evs w, (∀ ev ∈ evs, 0 < ev.now) →
      ((crashRun T lastCrash evs).2.filter
        (fun t => decide (w ≤ t ∧ t < w + T))).length ≤ 1) := by
  refine ⟨?_, ?_, ?_⟩
  · intro lc ev hrc h0 hlt
    obtain ⟨ho, hd, hcl⟩ := hrc
    refine ⟨?_, rfl, rfl⟩
    simp [handleServerCrash, ho, hd, hcl, hT, h0, hlt]
  · intro lc ev hrc hn
    obtain ⟨ho, hd, hcl⟩ := hrc
    have hcond : ¬(T ≠ 0 ∧ lc ≠ 0 ∧ ev.now < lc + T) := fun h => hn ⟨h.2.1, h.2.2⟩
    refine ⟨?_, rfl⟩
    simp [handleServerCrash, ho, hd, hcl, hcond]
  · intro lc evs w hpos
    exact pairwise_sep_window T _
      ((crashRun_restart_separation T hT evs lc hpos).1) w

theorem claim_C2_crash_cooldown_witness :
    (60 : Nat) ≠ 0 ∧
    handleServerCrash 60 100 ⟨105, true, true, 137, false, false⟩ = (.tooFrequent, 100) ∧
    handleServerCrash 60 0 ⟨100, true, true, 137, false, false⟩ = (.restart, 100) ∧
    ((crashRun 60 0 [⟨100, true, true, 137, false, false⟩,
        ⟨105, true, true, 137, false, false⟩]).2.filter
      (fun t => decide (100 ≤ t ∧ t < 100 + 60))).length ≤ 1 := by
  have h60 : (60 : Nat) ≠ 0 := by decide
  refine ⟨h60, ?_, ?_, ?_⟩
  · exact ((claim_C2_crash_cooldown 60 h60).1 100 ⟨105, true, true, 137, false, false⟩
      ⟨rfl, rfl, by decide⟩ (by decide) (by decide)).1
  · exact ((claim_C2_crash_cooldown 60 h60).2.1 0 ⟨100, true, true, 137, false, false⟩
      ⟨rfl, rfl, by decide⟩ (by decide)).1
  · exact (claim_C2_crash_cooldown 60 h60).2.2 0
      [⟨100, true, true, 137, false, false⟩, ⟨105, true, true, 137, false, false⟩]
      100 (by decide)

/-- C7: if the last container exit has exit code 0, was not OOM-killed,
and `detect_clean_exit_as_crash` is false, then `handleServerCrash`
returns success without publishing the crash banner, without updating
`last_crash`, and without invoking any restart — on every path (whether
it stops at the state/detection guard or at the clean-exit guard). -/
theorem claim_C7_clean_exit_no_crash (T lastCrash : Nat) (ev : CrashEvent)
    (h0 : ev.exitCode = 0) (hoom : ev.oomKilled = false)
    (hdc : ev.detectCleanExitAsCrash = false) :
    (handleServerCrash T lastCrash ev).2 = lastCrash ∧
    (handleServerCrash T lastCrash ev).1.announcedCrash = false ∧
    (handleServerCrash T lastCrash ev).1.didRestart = false ∧
    (handleServerCrash T lastCrash ev).1.isRefusal = false := by
  unfold handleServerCrash
  by_cases h1 : ev.offline = false ∨ ev.detectionEnabled = false
  · simp only [h1, if_true]
    by_cases h2 : ev.detectionEnabled = false <;>
      simp [h2, CrashOutcome.announcedCrash, CrashOutcome.didRestart,
        CrashOutcome.isRefusal]
  · have h2 : ev.exitCode = 0 ∧ ev.oomKilled = false ∧ ev.detectCleanExitAsCrash = false :=
      ⟨h0, hoom, hdc⟩
    simp [h1, h2, CrashOutcome.announcedCrash, CrashOutcome.didRestart,
      CrashOutcome.isRefusal]

theorem claim_C7_clean_exit_no_crash_witness :
    (⟨10, true, true, 0, false, false⟩ : CrashEvent).exitCode = 0 ∧
    (handleServerCrash 60 5 ⟨10, true, true, 0, false, false⟩).2 = 5 ∧
    (handleServerCrash 60 5 ⟨10, true, true, 0, false, false⟩).1.announcedCrash = false ∧
    (handleServerCrash 60 5 ⟨10, true, true, 0, false, false⟩).1.didRestart = false ∧
    (handleServerCrash 60 5 ⟨10, true, true, 0, false, false⟩).1.isRefusal = false := by
  have h := claim_C7_clean_exit_no_crash 60 5 ⟨10, true, true, 0, false, false⟩
    rfl rfl rfl
  exact ⟨rfl, h.1, h.2.1, h.2.2.1, h.2.2.2⟩

/-! ## Sandbox safety of the archive engine -/

theorem safePath_isPrefixOf (root p rp : GoPath) (h : safePath root p = some rp) :
    root.isPrefixOf rp = true := by
  simp only [safePath] at h
  split at h
  · next hc => cases h; exact hc
  · cases h

theorem Writefile_files_under (root : GoPath) (st : FState) (p : GoPath) (n : Nat) :
    ∀ q ∈ (Writefile root st p n).1.files,
      q ∈ st.files ∨ root.isPrefixOf q.1 = true := by
  intro q hq
  unfold Writefile at hq
  split at hq
  · exact Or.inl hq
  · next rp h =>
    split at hq
    · unfold setFile at hq
      rcases List.mem_append.mp hq with h1 | h1
      · exact Or.inl (List.mem_of_mem_filter h1)
      · have h2 := List.mem_singleton.mp h1
        refine Or.inr ?_
        rw [h2]
        exact safePath_isPrefixOf root p rp h
    · exact Or.inl hq

theorem extractEntry_files_under (root : GoPath) (ign : GoPath → Bool)
    (dec : GoPath → GoPath) (dir : GoPath) (e : GoEntry) (st : FState) :
    ∀ q ∈ (extractEntry root ign dec dir e st).1.files,
      q ∈ st.files ∨ root.isPrefixOf q.1 = true := by
  intro q hq
  simp only [extractEntry] at hq
  split at hq
  · exact Or.inl hq
  · split at hq
    · exact Or.inl hq
    · exact Writefile_files_under root st _ e.size q hq

theorem extractLoop_files_under (root : GoPath) (ign : GoPath → Bool)
    (dec : GoPath → GoPath) (dir : GoPath) :
    ∀ (entries : List GoEntry) (cancel : Option Nat) (st : FState),
      ∀ q ∈ (extractLoop root ign dec dir cancel entries st).1.files,
        q ∈ st.files ∨ root.isPrefixOf q.1 = true := by
  intro entries
  induction entries with
  | nil => intro cancel st q hq; exact Or.inl hq
  | cons e rest ih =>
    intro cancel st q hq
    unfold extractLoop at hq
    split at hq
    · exact Or.inl hq
    · split at hq
      · next st' er heq =>
        have h1 : q ∈ (extractEntry root ign dec dir e st).1.files := by
          rw [heq]; exact hq
        exact extractEntry_files_under root ign dec dir e st q h1
      · next st' heq =>
        rcases ih (ctxStep cancel) st' q hq with h1 | h1
        · have h2 : q ∈ (extractEntry root ign dec dir e st).1.files := by
            rw [heq]; exact h1
          exact extractEntry_files_under root ign dec dir e st q h2
        · exact Or.inr h1

theorem decompressChunks_files_at (rp : GoPath) :
    ∀ (chunks : List Nat) (st : FState) (q : GoPath × Nat),
      q ∈ (decompressChunks rp chunks st).1.files → q ∈ st.files ∨ q.1 = rp := by
  intro chunks
  induction chunks with
  | nil => intro st q hq; exact Or.inl hq
  | cons n rest ih =>
    intro st q hq
    unfold decompressChunks at hq
    split at hq
    · rcases ih _ q hq with h1 | h1
      · unfold setFile at h1
        rcases List.mem_append.mp h1 with h2 | h2
        · exact Or.inl (List.mem_of_mem_filter h2)
        · have h3 := List.mem_singleton.mp h2
          exact Or.inr (by rw [h3])
      · exact Or.inr h1
    · exact Or.inl hq

theorem extractSingle_files_under (root : GoPath) (ign : GoPath → Bool)
    (opts : ExtractOpts) (st : FState) :
    ∀ q ∈ (extractSingle root ign opts st).1.files,
      q ∈ st.files ∨ root.isPrefixOf q.1 = true := by
  intro q hq
  simp only [extractSingle] at hq
  split at hq
  · exact Or.inl hq
  · split at hq
    · exact Or.inl hq
    · next rp h =>
      rcases decompressChunks_files_at rp opts.chunkSizes _ q hq with h1 | h1
      · unfold setFile at h1
        rcases List.mem_append.mp h1 with h2 | h2
        · exact Or.inl (List.mem_of_mem_filter h2)
        · have h3 := List.mem_singleton.mp h2
          refine Or.inr ?_
          rw [h3]
          exact safePath_isPrefixOf root _ rp h
      · refine Or.inr ?_
        rw [h1]
        exact safePath_isPrefixOf root _ rp h

/-- C9 (implicit): when the identified archive format implements neither
the extractor interface nor the single-file decompressor interface,
`extractStream` returns success having written no files and changed
nothing, instead of returning an unknown-archive error; composed with
`Identify` in `DecompressFile`, such an input reports success while
extracting nothing. -/
theorem claim_C9_no_capability_silent_success (root : GoPath)
    (ign : GoPath → Bool) (dec : GoPath → GoPath) (cancel : Option Nat)
    (opts : ExtractOpts) (st : FState)
    (hex : opts.isExtractor = false) (hde : opts.isDecompressor = false) :
    extractStream root ign dec cancel opts st = (st, none) := by
  unfold extractStream
  simp [hex, hde]

theorem claim_C9_no_capability_silent_success_witness :
    (⟨[], [[120]], [], false, false, [⟨[[101]], false, 3⟩], []⟩ : ExtractOpts).isExtractor
        = false ∧
    extractStream [] (fun _ => false) (fun p => p) none
        ⟨[], [[120]], [], false, false, [⟨[[101]], false, 3⟩], []⟩
        ⟨0, 0, []⟩ = (⟨0, 0, []⟩, none) := by
  exact ⟨rfl, claim_C9_no_capability_silent_success [] (fun _ => false) (fun p => p)
    none ⟨[], [[120]], [], false, false, [⟨[[101]], false, 3⟩], []⟩ ⟨0, 0, []⟩ rfl rfl⟩

/-- C3: `CompressFiles` streams the archive to disk and, after the stream
finishes having written `n` bytes, checks whether `n` fits in the
remaining quota: if it does not fit, the archive file is removed and a
disk-space error is returned with `disk_used` unchanged; if it fits,
exactly `n` is added to `disk_used` and the archive's file info is
returned. -/
theorem claim_C3_compress_quota_check (root : GoPath) (st : FState)
    (dir : GoPath) (archName : Seg) (n : Nat) (rp : GoPath)
    (hsp : safePath root (joinRel dir [archName]) = some rp) :
    (fitsQuota st n = false →
      (CompressFiles root st dir archName (some n)).2 = .error .diskSpace ∧
      (CompressFiles root st dir archName (some n)).1.diskUsed = st.diskUsed ∧
      ∀ m, (rp, m) ∉ (CompressFiles root st dir archName (some n)).1.files) ∧
    (fitsQuota st n = true →
      (CompressFiles root st dir archName (some n)).2 = .ok n ∧
      (CompressFiles root st dir archName (some n)).1.diskUsed = st.diskUsed + n ∧
      (rp, n) ∈ (CompressFiles root st dir archName (some n)).1.files) := by
  have hq2 : fitsQuota { st with
      files := setFile (setFile st.files rp 0) rp n } n = fitsQuota st n := rfl
  constructor
  · intro hf
    simp only [CompressFiles, hsp, hq2, hf]
    refine ⟨by trivial, by trivial, ?_⟩
    intro m hm
    unfold removeFile at hm
    have := List.mem_filter.mp hm
    simp at this
  · intro hf
    simp only [CompressFiles, hsp, hq2, hf, if_true]
    refine ⟨by trivial, by trivial, ?_⟩
    unfold setFile
    exact List.mem_append.mpr (Or.inr (List.mem_singleton.mpr rfl))

theorem claim_C3_compress_quota_check_witness :
    safePath [[114]] (joinRel [] [[97]]) = some [[114], [97]] ∧
    fitsQuota ⟨10, 0, []⟩ 4 = true ∧
    (CompressFiles [[114]] ⟨10, 0, []⟩ [] [97] (some 4)).2 = .ok 4 ∧
    (CompressFiles [[114]] ⟨10, 0, []⟩ [] [97] (some 4)).1.diskUsed = 0 + 4 ∧
    ([[114], [97]], 4) ∈ (CompressFiles [[114]] ⟨10, 0, []⟩ [] [97] (some 4)).1.files ∧
    fitsQuota ⟨3, 0, []⟩ 4 = false ∧
    (CompressFiles [[114]] ⟨3, 0, []⟩ [] [97] (some 4)).2 = .error .diskSpace ∧
    (CompressFiles [[114]] ⟨3, 0, []⟩ [] [97] (some 4)).1.diskUsed = 0 := by
  have hfit := (claim_C3_compress_quota_check [[114]] ⟨10, 0, []⟩ [] [97] 4
    [[114], [97]] (by decide)).2 (by decide)
  have hnofit := (claim_C3_compress_quota_check [[114]] ⟨3, 0, []⟩ [] [97] 4
    [[114], [97]] (by decide)).1 (by decide)
  exact ⟨by decide, by decide, hfit.1, hfit.2.1, hfit.2.2, by decide,
    hnofit.1, hnofit.2.1⟩

/-- C8 (implicit): the SafePath-based `CompressFiles` overwrites every
element of the caller-supplied `paths` slice in place with the
root-joined path before validating them, so once `dir` itself resolves,
the argument slice is observably mutated — in every later branch,
including all the failing ones. -/
theorem claim_C8_paths_slice_mutated (spf : GoPath → Option GoPath)
    (dir : GoPath) (paths : List GoPath) (createOk : Bool)
    (statSize : Option Nat) (st : FState) (cleanedRoot : GoPath)
    (h : spf dir = some cleanedRoot) :
    (CompressFiles_v1 spf dir paths createOk statSize st).2 =
      paths.map (fun p => joinAbs cleanedRoot p) := by
  simp only [CompressFiles_v1, h]
  cases hp : ParallelSafePath spf (List.map (fun p => joinAbs cleanedRoot p) paths) <;>
    simp only [hp]
  · split
    · rfl
    · cases statSize
      · rfl
      · split <;> first | rfl | (split <;> rfl)

theorem claim_C8_paths_slice_mutated_witness :
    safePath [[114]] [] = some [[114]] ∧
    (CompressFiles_v1 (safePath [[114]]) [] [[[46, 46]], [[101]]] true none
      ⟨0, 0, []⟩).1 = .error .otherErr ∧
    (CompressFiles_v1 (safePath [[114]]) [] [[[46, 46]], [[101]]] true none
      ⟨0, 0, []⟩).2 =
      [[[46, 46]], [[101]]].map (fun p => joinAbs [[114]] p) := by
  refine ⟨by decide, rfl, ?_⟩
  exact claim_C8_paths_slice_mutated (safePath [[114]]) [] [[[46, 46]], [[101]]]
    true none ⟨0, 0, []⟩ [[114]] (by decide)

/-! ## HTTP error translator claims -/

/-- `AbortWithStatus` written out branch by branch. -/
theorem AbortWithStatus_eval (req com : Nat) (e : ReqErr) :
    AbortWithStatus req com e =
      if e.kind = .notExist then ⟨404, none, none⟩
      else if e.kind = .invalidEscape then ⟨400, none, none⟩
      else if getAsFilesystemError e.kind ≠ 0 then
        ⟨getAsFilesystemError e.kind, none, none⟩
      else
        ⟨if com ≠ 200 then com else req, some e.uuid,
          some (if 500 ≤ (if com ≠ 200 then com else req) then LogLevel.errorLevel
            else LogLevel.debugLevel, e.uuid)⟩ := rfl

/-- C6: the translator maps each filesystem error kind to exactly the
status code of the spec's table — denylist 403, path_resolution 404,
is_directory 400, disk_space 400, name_too_long 400 — and every response
with status ≥ 500 carries the correlation uuid in its body together with
an error-level log entry recording the same uuid. -/
theorem claim_C6_status_mapping_and_uuid :
    (∀ req com u, AbortWithStatus req com ⟨.denylist, u⟩ = ⟨403, none, none⟩) ∧
    (∀ req com u, AbortWithStatus req com ⟨.pathResolution, u⟩ = ⟨404, none, none⟩) ∧
    (∀ req com u, AbortWithStatus req com ⟨.isDirectory, u⟩ = ⟨400, none, none⟩) ∧
    (∀ req com u, AbortWithStatus req com ⟨.diskSpace, u⟩ = ⟨400, none, none⟩) ∧
    (∀ req com u, AbortWithStatus req com ⟨.nameTooLong, u⟩ = ⟨400, none, none⟩) ∧
    (∀ req com e, 500 ≤ (AbortWithStatus req com e).status →
      (AbortWithStatus req com e).bodyErrorId = some e.uuid ∧
      (AbortWithStatus req com e).logged = some (.errorLevel, e.uuid)) := by
  refine ⟨fun req com u => rfl, fun req com u => rfl, fun req com u => rfl,
    fun req com u => rfl, fun req com u => rfl, ?_⟩
  intro req com e h5
  rw [AbortWithStatus_eval] at h5 ⊢
  by_cases h1 : e.kind = .notExist
  · rw [if_pos h1] at h5
    exact absurd h5 (by decide)
  · rw [if_neg h1] at h5 ⊢
    by_cases h2 : e.kind = .invalidEscape
    · rw [if_pos h2] at h5
      exact absurd h5 (by decide)
    · rw [if_neg h2] at h5 ⊢
      by_cases h3 : getAsFilesystemError e.kind ≠ 0
      · rw [if_pos h3] at h5
        have hlt : getAsFilesystemError e.kind < 500 := by
          cases e.kind <;> decide
        dsimp only at h5
        omega
      · rw [if_neg h3] at h5 ⊢
        dsimp only at h5 ⊢
        exact ⟨rfl, by rw [if_pos h5]⟩

theorem claim_C6_status_mapping_and_uuid_witness :
    500 ≤ (AbortWithStatus 500 200 ⟨.otherKind, 7⟩).status ∧
    (AbortWithStatus 500 200 ⟨.otherKind, 7⟩).bodyErrorId = some 7 ∧
    (AbortWithStatus 500 200 ⟨.otherKind, 7⟩).logged = some (.errorLevel, 7) := by
  have h := claim_C6_status_mapping_and_uuid.2.2.2.2.2 500 200 ⟨.otherKind, 7⟩
    (by decide)
  exact ⟨by decide, h.1, h.2⟩

/-- C10 counterexample: with a committed status of 409 (≠ 200) and a
denylist error, `AbortWithStatus` still answers 403 from the kind-to-status
mapping — the mapping takes effect although the response status had been
set before the error was handled, contradicting the claim that the
mapping only takes effect on requests whose status has not been set. -/
theorem claim_C10_counterexample :
    AbortWithStatus 500 409 ⟨.denylist, 1⟩ = ⟨403, none, none⟩ ∧
    (409 : Nat) ≠ 200 ∧ (403 : Nat) ≠ 409 := by
  exact ⟨rfl, by decide, by decide⟩

/-- C10 (amended): `AbortWithStatus` replaces the caller-requested status
with the committed status whenever the committed status is not 200, but
that replaced status is used only by the generic response branch (and its
≥ 500 log-level decision); the not-found, bad-escape and filesystem
kind-to-status mappings answer with their fixed statuses regardless of
the previously set status. -/
theorem claim_C10_committed_status_override (req com : Nat) (e : ReqErr) :
    (e.kind = .otherKind →
      (AbortWithStatus req com e).status = (if com ≠ 200 then com else req)) ∧
    (getAsFilesystemError e.kind ≠ 0 →
      (AbortWithStatus req com e).status = getAsFilesystemError e.kind) ∧
    (e.kind = .notExist → (AbortWithStatus req com e).status = 404) ∧
    (e.kind = .invalidEscape → (AbortWithStatus req com e).status = 400) := by
  refine ⟨?_, ?_, ?_, ?_⟩
  · intro hk
    simp [AbortWithStatus, getAsFilesystemError, hk]
  · intro hfs
    cases hk : e.kind <;>
      simp_all [AbortWithStatus, getAsFilesystemError]
  · intro hk
    simp [AbortWithStatus, hk]
  · intro hk
    simp [AbortWithStatus, hk]

theorem claim_C10_committed_status_override_witness :
    (⟨.otherKind, 3⟩ : ReqErr).kind = .otherKind ∧
    (AbortWithStatus 500 409 ⟨.otherKind, 3⟩).status = 409 ∧
    getAsFilesystemError ErrKind.denylist ≠ 0 ∧
    (AbortWithStatus 500 409 ⟨.denylist, 3⟩).status = getAsFilesystemError .denylist := by
  refine ⟨rfl, ?_, by decide, ?_⟩
  · have h := (claim_C10_committed_status_override 500 409 ⟨.otherKind, 3⟩).1 rfl
    simpa using h
  · exact (claim_C10_committed_status_override 500 409 ⟨.denylist, 3⟩).2.1 (by decide)

/-! ## Filename decoding claims -/

theorem gbkDecode_ascii (l : List Nat) (h : ∀ b ∈ l, b < 0x80) :
    gbkDecode l = l := by
  induction l with
  | nil => rfl
  | cons b rest ih =>
    have hb : b < 0x80 := h b (List.mem_cons_self _ _)
    have hr := ih (fun x hx => h x (List.mem_cons_of_mem _ hx))
    cases rest with
    | nil => simp [gbkDecode, hb]
    | cons c r2 =>
      rw [gbkDecode, if_pos hb, hr]

theorem decodeGBKPath_ascii (p : GoPath) (h : ∀ s ∈ p, ∀ b ∈ s, b < 0x80) :
    decodeGBKPath p = p := by
  unfold decodeGBKPath
  induction p with
  | nil => rfl
  | cons s rest ih =>
    rw [List.map_cons,
      gbkDecode_ascii s (h s (List.mem_cons_self _ _)),
      ih (fun x hx => h x (List.mem_cons_of_mem _ hx))]

/-- C4 counterexample: the entry name `0xC3 0xA9` (the valid UTF-8
encoding of `é`) is altered by the extraction pipeline: `decodeGBK` is
applied although the name is valid UTF-8, turning it into the UTF-8 bytes
of U+8305, and the file is created under that decoded name — whereas the
claim (and `specEntryName`, its transcription) says the declared bytes
are kept for every valid-UTF-8 name. -/
theorem claim_C4_counterexample :
    utf8Valid [195, 169] = true ∧
    specEntryName [195, 169] = [195, 169] ∧
    gbkDecode [195, 169] = [232, 140, 133] ∧
    (extractStream [] (fun _ => false) decodeGBKPath none
        ⟨[], [], [], true, false, [⟨[[195, 169]], false, 1⟩], []⟩
        ⟨0, 0, []⟩).1.files = [([[232, 140, 133]], 1)] ∧
    [[232, 140, 133]] ≠ [[195, 169]] := by
  refine ⟨by decide, by decide, by decide, by decide, by decide⟩

/-- C4 (amended): `decodeGBK` is applied unconditionally to every
container-archive entry's joined target path — not only when the name is
invalid as UTF-8 — so a valid-UTF-8 non-ASCII name is altered while an
all-ASCII name passes through unchanged; the decode happens before the
safe-path check, so the path that is safety-checked and the path that is
written are the same decoded path. -/
theorem claim_C4_decode_unconditional (root : GoPath) (ign : GoPath → Bool)
    (dir : GoPath) (e : GoEntry) (st : FState)
    (hdir : e.isDir = false) (hign : ign (joinRel dir e.nameSegs) = false) :
    extractEntry root ign decodeGBKPath dir e st =
      Writefile root st (decodeGBKPath (joinRel dir e.nameSegs)) e.size ∧
    (∀ rp, safePath root (decodeGBKPath (joinRel dir e.nameSegs)) = some rp →
      fitsQuota st e.size = true →
      (rp, e.size) ∈ (extractEntry root ign decodeGBKPath dir e st).1.files) ∧
    ((∀ s ∈ joinRel dir e.nameSegs, ∀ b ∈ s, b < 0x80) →
      decodeGBKPath (joinRel dir e.nameSegs) = joinRel dir e.nameSegs) := by
  have h1 : extractEntry root ign decodeGBKPath dir e st =
      Writefile root st (decodeGBKPath (joinRel dir e.nameSegs)) e.size := by
    simp only [extractEntry, hdir, Bool.false_eq_true, if_false, hign]
  refine ⟨h1, ?_, ?_⟩
  · intro rp hsp hfit
    rw [h1]
    simp only [Writefile, hsp, hfit, if_true]
    unfold setFile
    exact List.mem_append.mpr (Or.inr (List.mem_singleton.mpr rfl))
  · intro hascii
    exact decodeGBKPath_ascii _ hascii

theorem claim_C4_decode_unconditional_witness :
    (⟨[[97]], false, 2⟩ : GoEntry).isDir = false ∧
    extractEntry [] (fun _ => false) decodeGBKPath [] ⟨[[97]], false, 2⟩ ⟨0, 0, []⟩ =
      Writefile [] ⟨0, 0, []⟩ (decodeGBKPath (joinRel [] [[97]])) 2 ∧
    ([[97]], 2) ∈ (extractEntry [] (fun _ => false) decodeGBKPath []
      ⟨[[97]], false, 2⟩ ⟨0, 0, []⟩).1.files ∧
    decodeGBKPath (joinRel [] [[97]]) = joinRel [] [[97]] := by
  have h := claim_C4_decode_unconditional [] (fun _ => false) []
    ⟨[[97]], false, 2⟩ ⟨0, 0, []⟩ rfl rfl
  exact ⟨rfl, h.1, h.2.1 [[97]] (by decide) (by decide), h.2.2 (by decide)⟩

/-! ## Zip-slip and cancellation claims -/

/-- C1 counterexample.  (A) An archive entry named `../e`, extracted into
the subdirectory `s` of the root `r`, is written to `r/e` — outside the
extraction target directory `r/s` — and the call succeeds, so files can
be created outside the target directory.  (B) An entry named `../e` that
escapes the server root but is matched by the denylist (a configurable
gitignore set, e.g. the pattern `*`) is skipped without any error, so not
every escaping entry is rejected with a path-resolution error. -/
theorem claim_C1_counterexample :
    (extractStream [[114]] (fun _ => false) (fun p => p) none
        ⟨[[115]], [], [], true, false, [⟨[[46, 46], [101]], false, 5⟩], []⟩
        ⟨0, 0, []⟩) = (⟨0, 5, [([[114], [101]], 5)]⟩, none) ∧
    List.isPrefixOf [[114], [115]] [[114], [101]] = false ∧
    (extractStream [[114]] (fun _ => true) (fun p => p) none
        ⟨[], [], [], true, false, [⟨[[46, 46], [101]], false, 5⟩], []⟩
        ⟨0, 0, []⟩) = (⟨0, 0, []⟩, none) := by
  refine ⟨by decide, by decide, by decide⟩

/-- C1 (amended): every container-archive entry that is a file, is not
matched by the denylist, and whose decoded joined target path does not
resolve to a descendant of the server root is rejected by the entry
callback with a path-resolution error (which aborts the extraction); and
no extraction ever creates a file outside the server root — though an
entry can land outside the extraction target directory while staying
inside the root, and denylist-matched entries are skipped without
error. -/
theorem claim_C1_zip_slip (root : GoPath) (ign : GoPath → Bool)
    (dec : GoPath → GoPath) (cancel : Option Nat) (opts : ExtractOpts)
    (st : FState) (dir : GoPath) (e : GoEntry) :
    (∀ q ∈ (extractStream root ign dec cancel opts st).1.files,
        q ∈ st.files ∨ root.isPrefixOf q.1 = true) ∧
    (e.isDir = false → ign (joinRel dir e.nameSegs) = false →
      safePath root (dec (joinRel dir e.nameSegs)) = none →
      extractEntry root ign dec dir e st = (st, some .pathResolution)) := by
  constructor
  · intro q hq
    unfold extractStream at hq
    split at hq
    · exact extractLoop_files_under root ign dec opts.directory
        opts.entries cancel st q hq
    · split at hq
      · exact extractSingle_files_under root ign opts st q hq
      · exact Or.inl hq
  · intro hdir hign hsp
    simp only [extractEntry, hdir, Bool.false_eq_true, if_false, hign]
    simp only [Writefile, hsp]

theorem claim_C1_zip_slip_witness :
    (⟨[[46, 46], [101]], false, 5⟩ : GoEntry).isDir = false ∧
    safePath [[114]] (joinRel [] [[46, 46], [101]]) = none ∧
    extractEntry [[114]] (fun _ => false) (fun p => p) []
        ⟨[[46, 46], [101]], false, 5⟩ ⟨0, 0, []⟩ =
      (⟨0, 0, []⟩, some .pathResolution) ∧
    (([[115]], 3) ∈ (extractStream [[114]] (fun _ => false) (fun p => p) none
        ⟨[], [], [], true, false, [⟨[[101]], false, 3⟩], []⟩
        ⟨0, 0, []⟩).1.files →
      ([[115]], 3) ∈ ([] : List (GoPath × Nat)) ∨
        List.isPrefixOf [[114]] [[115]] = true) := by
  have h := claim_C1_zip_slip [[114]] (fun _ => false) (fun p => p) none
    ⟨[], [], [], true, false, [⟨[[101]], false, 3⟩], []⟩
    ⟨0, 0, []⟩ [] ⟨[[46, 46], [101]], false, 5⟩
  exact ⟨rfl, by decide, h.2 rfl rfl (by decide), h.1 ([[115]], 3)⟩

/-- One non-cancelled step of the container-archive loop. -/
theorem extractLoop_cons_step (root : GoPath) (ign : GoPath → Bool)
    (dec : GoPath → GoPath) (dir : GoPath) (cancel : Option Nat) (e : GoEntry)
    (rest : List GoEntry) (st : FState) (hnc : ctxDone cancel = false) :
    extractLoop root ign dec dir cancel (e :: rest) st =
      match extractEntry root ign dec dir e st with
      | (st', some er) => (st', some er)
      | (st', none) => extractLoop root ign dec dir (ctxStep cancel) rest st' := by
  rw [extractLoop, hnc]
  simp only [Bool.false_eq_true, if_false]

/-- Cancellation at the k-th entry boundary: when the first `k` entries
process without error, the run with a context that is cancelled at that
boundary produces exactly the state of those `k` completed entries and a
cancellation error. -/
theorem extractLoop_cancel_boundary (root : GoPath) (ign : GoPath → Bool)
    (dec : GoPath → GoPath) (dir : GoPath) :
    ∀ (entries : List GoEntry) (k : Nat) (st : FState),
      k < entries.length →
      (extractLoop root ign dec dir none (entries.take k) st).2 = none →
      extractLoop root ign dec dir (some k) entries st =
        ((extractLoop root ign dec dir none (entries.take k) st).1,
          some .cancelled) := by
  intro entries
  induction entries with
  | nil => intro k st hk _; exact absurd hk (by simp)
  | cons e rest ih =>
    intro k st hk hok
    cases k with
    | zero =>
      rw [extractLoop]
      rfl
    | succ k' =>
      have hk' : k' < rest.length := Nat.lt_of_succ_lt_succ hk
      rw [List.take_succ_cons] at hok ⊢
      rw [extractLoop_cons_step root ign dec dir none e _ st rfl] at hok
      rw [extractLoop_cons_step root ign dec dir (some (k' + 1)) e rest st rfl,
        extractLoop_cons_step root ign dec dir none e _ st rfl]
      cases he : extractEntry root ign dec dir e st with
      | mk st' erOpt =>
        simp only [he] at hok ⊢
        cases erOpt with
        | some er => simp at hok
        | none => exact ih k' st' hk' hok

/-- C5 (amended): context cancellation is observed only in the
container-archive branch, at entry boundaries: extraction stops there
with a cancellation error, and the state it returns is exactly the state
of the fully completed entries — files are written entry-atomically, so
no partially written target file exists (there is nothing to remove) and
`disk_used` accounts exactly for the completed entries — while the
single-file decompressor branch never consults the context and runs to
completion. -/
theorem claim_C5_cancellation (root : GoPath) (ign : GoPath → Bool)
    (dec : GoPath → GoPath) (opts : ExtractOpts) (st : FState) (k : Nat)
    (hex : opts.isExtractor = true) (hk : k < opts.entries.length)
    (hok : (extractLoop root ign dec opts.directory none
      (opts.entries.take k) st).2 = none) :
    extractStream root ign dec (some k) opts st =
      ((extractLoop root ign dec opts.directory none
        (opts.entries.take k) st).1, some .cancelled) := by
  unfold extractStream
  rw [hex]
  simp only [if_true]
  exact extractLoop_cancel_boundary root ign dec opts.directory
    opts.entries k st hk hok

theorem claim_C5_cancellation_witness :
    (⟨[], [], [], true, false, [⟨[[97]], false, 2⟩, ⟨[[98]], false, 3⟩], []⟩
        : ExtractOpts).isExtractor = true ∧
    (1 : Nat) < 2 ∧
    extractStream [] (fun _ => false) (fun p => p) (some 1)
        ⟨[], [], [], true, false, [⟨[[97]], false, 2⟩, ⟨[[98]], false, 3⟩], []⟩
        ⟨0, 0, []⟩ =
      (⟨0, 2, [([[97]], 2)]⟩, some .cancelled) := by
  have h := claim_C5_cancellation [] (fun _ => false) (fun p => p)
    ⟨[], [], [], true, false, [⟨[[97]], false, 2⟩, ⟨[[98]], false, 3⟩], []⟩
    ⟨0, 0, []⟩ 1 rfl (by decide) (by decide)
  exact ⟨rfl, by decide, h⟩

/-- C5 counterexample: with a context that is already cancelled
(`ctxDone` holds at the very first boundary), the single-file
decompressor branch still extracts the whole file and returns success —
no cancellation error is returned and the written file remains, contrary
to the claim that a cancelled decompression stops and returns a
cancellation error. -/
theorem claim_C5_counterexample :
    ctxDone (some 0) = true ∧
    extractStream [] (fun _ => false) decodeGBKPath (some 0)
        ⟨[], [[120, 46, 103, 122]], [46, 103, 122], false, true, [], [5]⟩
        ⟨0, 0, []⟩ = (⟨0, 5, [([[120]], 5)]⟩, none) := by
  refine ⟨by decide, by decide⟩

end Wings
